import Mathlib

/-!
Verification of the autoleveller component of pcb2gcode (src/autoleveller.cpp)
against its natural-language specification.

Conventions of the shallow embedding:
* C++ `double` values are modelled as exact rationals (`ℚ`); every IEEE double
  is a rational, and the planner/splitter arithmetic is plain field arithmetic.
* C++ `int` values are modelled as `ℤ` (no overflow occurs in the ranges the
  claims concern).
* The class `autoleveller` becomes the structure `Autoleveller`; a C++ member
  function mutating the object becomes a Lean function returning the updated
  structure alongside its return value.
* String emission (`boost::format`) is abstracted to the numeric payloads that
  are substituted into the format templates; the printf-style rounding of the
  textual output (`%.5f`, `%.3f`) is noted at each definition it touches.
-/

namespace Pcb2gcode

/-- Controller dialect selected by the `software` option (the enum from the
class header; the constructor maps the option string to LINUXCNC, MACH3,
MACH4, or CUSTOM for any unrecognized name). -/
inductive Software where
  | LINUXCNC
  | MACH4
  | MACH3
  | CUSTOM
deriving DecidableEq

/-- Tiling information (collaborator-owned `Tiling::TileInfo`): board
dimensions, tile counts and the enabled flag, read by `prepareWorkarea`
and by `header`. -/
structure TileInfo where
  boardWidth : ℚ
  boardHeight : ℚ
  tileX : ℤ
  tileY : ℤ
  enabled : Bool
deriving DecidableEq

/-- The state of an `autoleveller` object: the configuration computed by the
constructor plus the grid fields filled in by `prepareWorkarea` and the
`lastPoint` cursor mutated by `addChainPoint`. -/
structure Autoleveller where
  software : Software
  unitconv : ℚ
  cfactor : ℚ
  XProbeDistRequired : ℚ
  YProbeDistRequired : ℚ
  zwork : ℚ
  zprobe : ℚ
  zsafe : ℚ
  zfail : ℚ
  quantization_error : ℚ
  xoffset : ℚ
  yoffset : ℚ
  tileInfo : TileInfo
  startPointX : ℚ
  startPointY : ℚ
  numXPoints : ℤ
  numYPoints : ℤ
  XProbeDist : ℚ
  YProbeDist : ℚ
  averageProbeDist : ℚ
  lastPoint : ℚ × ℚ
deriving DecidableEq

/-- C++ `round` from `<cmath>`: round half away from zero. -/
def cppRound (q : ℚ) : ℤ :=
  if 0 ≤ q then ⌊q + 1 / 2⌋ else ⌈q - 1 / 2⌉

/-- Numeric part of `autoleveller::getVarName(i, j)`: the generated parameter
number `i * numYPoints + j + 500` (the emitted text is this number preceded
by a hash mark). -/
def getVarName (al : Autoleveller) (i j : ℤ) : ℤ :=
  i * al.numYPoints + j + 500

/-- Shallow embedding of `autoleveller::prepareWorkarea`.  The C++ function
first calls `computeWorkarea(toolpaths)`; here the resulting rectangle is
passed in as finite rational corners `((minX, minY), (maxX, maxY))` (finite
exactly when the toolpath collection is non-empty; `computeWorkarea` itself
is embedded separately below).  Returns the object with the grid fields
updated together with the `bool` the C++ function returns. -/
def prepareWorkarea (al : Autoleveller) (workarea : (ℚ × ℚ) × (ℚ × ℚ)) :
    Autoleveller × Bool :=
  let workareaLenX : ℚ := (workarea.2.1 - workarea.1.1) * al.cfactor +
      al.tileInfo.boardWidth * al.cfactor * ((al.tileInfo.tileX : ℚ) - 1)
  let workareaLenY : ℚ := (workarea.2.2 - workarea.1.2) * al.cfactor +
      al.tileInfo.boardHeight * al.cfactor * ((al.tileInfo.tileY : ℚ) - 1)
  let startPointX : ℚ := workarea.1.1 * al.cfactor
  let startPointY : ℚ := workarea.1.2 * al.cfactor
  let tempX : ℤ := cppRound (workareaLenX / al.XProbeDistRequired)
  let numXPoints : ℤ := if tempX > 1 then tempX + 1 else 2
  let tempY : ℤ := cppRound (workareaLenY / al.YProbeDistRequired)
  let numYPoints : ℤ := if tempY > 1 then tempY + 1 else 2
  let XProbeDist : ℚ := workareaLenX / ((numXPoints : ℚ) - 1)
  let YProbeDist : ℚ := workareaLenY / ((numYPoints : ℚ) - 1)
  let averageProbeDist : ℚ := (XProbeDist + YProbeDist) / 2
  let ok : Bool :=
    if (al.software = Software.LINUXCNC ∧ numXPoints * numYPoints > 4501) ∨
       (al.software ≠ Software.LINUXCNC ∧ numXPoints * numYPoints > 500) then
      false
    else
      true
  ({ al with
      startPointX := startPointX
      startPointY := startPointY
      numXPoints := numXPoints
      numYPoints := numYPoints
      XProbeDist := XProbeDist
      YProbeDist := YProbeDist
      averageProbeDist := averageProbeDist }, ok)

/-- The grid-size ceiling of each dialect, read off the capacity test in
`prepareWorkarea`: 4501 for LINUXCNC, 500 for every other dialect. -/
def gridCeiling : Software → ℤ
  | Software.LINUXCNC => 4501
  | _ => 500

/-- A default-valued `Autoleveller` used to build concrete test objects. -/
def blankAL : Autoleveller where
  software := Software.LINUXCNC
  unitconv := 1
  cfactor := 1
  XProbeDistRequired := 10
  YProbeDistRequired := 10
  zwork := -1
  zprobe := 2
  zsafe := 2
  zfail := -1
  quantization_error := 0
  xoffset := 0
  yoffset := 0
  tileInfo := { boardWidth := 0, boardHeight := 0, tileX := 1, tileY := 1, enabled := false }
  startPointX := 0
  startPointY := 0
  numXPoints := 2
  numYPoints := 2
  XProbeDist := 10
  YProbeDist := 10
  averageProbeDist := 10
  lastPoint := (0, 0)

/-- C1: `prepareWorkarea` returns `false` exactly when the computed
`numXPoints * numYPoints` exceeds the dialect's ceiling (4501 for LINUXCNC,
500 otherwise); in particular a product equal to the ceiling succeeds, and
the violation is only reported through the returned boolean (the grid
fields are stored unclamped either way). -/
theorem c1_grid_capacity_gate (al : Autoleveller) (w : (ℚ × ℚ) × (ℚ × ℚ)) :
    ((prepareWorkarea al w).2 = false ↔
      (prepareWorkarea al w).1.numXPoints * (prepareWorkarea al w).1.numYPoints >
        gridCeiling al.software) := by
  cases hsw : al.software <;>
    simp [prepareWorkarea, gridCeiling, hsw]

lemma two_le_numPoints_if (t : ℤ) : 2 ≤ (if t > 1 then t + 1 else 2) := by
  split <;> omega

lemma div_sub_one_mul_cancel (len : ℚ) (n : ℤ) (h : 2 ≤ n) :
    len / ((n : ℚ) - 1) * ((n : ℚ) - 1) = len := by
  refine div_mul_cancel₀ _ ?_
  have h2 : (2 : ℚ) ≤ (n : ℚ) := by exact_mod_cast h
  intro hc
  rw [sub_eq_zero] at hc
  rw [hc] at h2
  norm_num at h2

/-- C2: per axis the planner sets `n = round(span / requestedSpacing)`,
`numPoints = n + 1` when `n > 1`, `numPoints = 2` otherwise, so
`numPoints ≥ 2` always; the stored actual spacing is `span / (numPoints-1)`,
hence spacing times `(numPoints - 1)` reproduces the span exactly; the
100×80 span with requested spacing 10×10 yields 11 and 9 points with actual
spacings exactly 10 and 10. -/
theorem c2_grid_planner_axis_counts (al : Autoleveller) (w : (ℚ × ℚ) × (ℚ × ℚ)) :
    2 ≤ (prepareWorkarea al w).1.numXPoints ∧
    2 ≤ (prepareWorkarea al w).1.numYPoints ∧
    (prepareWorkarea al w).1.numXPoints =
      (if cppRound (((w.2.1 - w.1.1) * al.cfactor +
            al.tileInfo.boardWidth * al.cfactor * ((al.tileInfo.tileX : ℚ) - 1)) /
            al.XProbeDistRequired) > 1 then
        cppRound (((w.2.1 - w.1.1) * al.cfactor +
            al.tileInfo.boardWidth * al.cfactor * ((al.tileInfo.tileX : ℚ) - 1)) /
            al.XProbeDistRequired) + 1
      else 2) ∧
    (prepareWorkarea al w).1.numYPoints =
      (if cppRound (((w.2.2 - w.1.2) * al.cfactor +
            al.tileInfo.boardHeight * al.cfactor * ((al.tileInfo.tileY : ℚ) - 1)) /
            al.YProbeDistRequired) > 1 then
        cppRound (((w.2.2 - w.1.2) * al.cfactor +
            al.tileInfo.boardHeight * al.cfactor * ((al.tileInfo.tileY : ℚ) - 1)) /
            al.YProbeDistRequired) + 1
      else 2) ∧
    (prepareWorkarea al w).1.XProbeDist * (((prepareWorkarea al w).1.numXPoints : ℚ) - 1) =
      (w.2.1 - w.1.1) * al.cfactor +
        al.tileInfo.boardWidth * al.cfactor * ((al.tileInfo.tileX : ℚ) - 1) ∧
    (prepareWorkarea al w).1.YProbeDist * (((prepareWorkarea al w).1.numYPoints : ℚ) - 1) =
      (w.2.2 - w.1.2) * al.cfactor +
        al.tileInfo.boardHeight * al.cfactor * ((al.tileInfo.tileY : ℚ) - 1) ∧
    (prepareWorkarea blankAL ((0, 0), (100, 80))).1.numXPoints = 11 ∧
    (prepareWorkarea blankAL ((0, 0), (100, 80))).1.numYPoints = 9 ∧
    (prepareWorkarea blankAL ((0, 0), (100, 80))).1.XProbeDist = 10 ∧
    (prepareWorkarea blankAL ((0, 0), (100, 80))).1.YProbeDist = 10 := by
  refine ⟨two_le_numPoints_if _, two_le_numPoints_if _, rfl, rfl, ?_, ?_, ?_, ?_, ?_, ?_⟩
  · exact div_sub_one_mul_cancel _ _ (two_le_numPoints_if _)
  · exact div_sub_one_mul_cancel _ _ (two_le_numPoints_if _)
  · norm_num [prepareWorkarea, blankAL, cppRound]
  · norm_num [prepareWorkarea, blankAL, cppRound]
  · norm_num [prepareWorkarea, blankAL, cppRound]
  · norm_num [prepareWorkarea, blankAL, cppRound]

/-- C6: the table-addressing function `index(i, j) = i * numYPoints + j + 500`
is injective on the grid domain: for a grid with at least 2 points per axis,
two distinct in-range index pairs always receive distinct parameter
numbers. -/
theorem c6_getVarName_injective (al : Autoleveller)
    (hX : 2 ≤ al.numXPoints) (hY : 2 ≤ al.numYPoints)
    (i₁ j₁ i₂ j₂ : ℤ)
    (hi₁l : 0 ≤ i₁) (hi₁u : i₁ < al.numXPoints)
    (hj₁l : 0 ≤ j₁) (hj₁u : j₁ < al.numYPoints)
    (hi₂l : 0 ≤ i₂) (hi₂u : i₂ < al.numXPoints)
    (hj₂l : 0 ≤ j₂) (hj₂u : j₂ < al.numYPoints)
    (hne : (i₁, j₁) ≠ (i₂, j₂)) :
    getVarName al i₁ j₁ ≠ getVarName al i₂ j₂ := by
  intro heq
  simp only [getVarName] at heq
  have hY0 : (0 : ℤ) ≤ al.numYPoints := by omega
  have hii : i₁ = i₂ := by
    rcases lt_trichotomy i₁ i₂ with hlt | heqi | hgt
    · exfalso
      have h1 : (i₁ + 1) * al.numYPoints ≤ i₂ * al.numYPoints :=
        mul_le_mul_of_nonneg_right (by omega) hY0
      have h2 : (i₁ + 1) * al.numYPoints = i₁ * al.numYPoints + al.numYPoints := by ring
      linarith
    · exact heqi
    · exfalso
      have h1 : (i₂ + 1) * al.numYPoints ≤ i₁ * al.numYPoints :=
        mul_le_mul_of_nonneg_right (by omega) hY0
      have h2 : (i₂ + 1) * al.numYPoints = i₂ * al.numYPoints + al.numYPoints := by ring
      linarith
  have hjj : j₁ = j₂ := by
    rw [hii] at heq
    have := add_right_cancel heq
    exact add_left_cancel this
  exact hne (by rw [hii, hjj])

/-- Witness for C6 at the concrete grid of `blankAL` (2×2): the hypotheses
hold and the indices (0,1) and (1,0) get distinct parameter numbers. -/
theorem c6_getVarName_injective_witness :
    2 ≤ blankAL.numXPoints ∧ 2 ≤ blankAL.numYPoints ∧
      getVarName blankAL 0 1 ≠ getVarName blankAL 1 0 :=
  ⟨by decide, by decide,
    c6_getVarName_injective blankAL (by decide) (by decide) 0 1 1 0
      (by decide) (by decide) (by decide) (by decide)
      (by decide) (by decide) (by decide) (by decide) (by decide)⟩

/-- Shallow embedding of `autoleveller::splitSegment(point, n)`: the loop
`for i = 1..n` pushes `lastPoint + (point - lastPoint) * i / n` for each
coordinate; here the loop body is mapped over `i+1` for `i ∈ range n`. -/
def splitSegment (al : Autoleveller) (point : ℚ × ℚ) (n : ℕ) : List (ℚ × ℚ) :=
  (List.range n).map fun (i : ℕ) =>
    (al.lastPoint.1 + (point.1 - al.lastPoint.1) * ((i : ℚ) + 1) / (n : ℚ),
     al.lastPoint.2 + (point.2 - al.lastPoint.2) * ((i : ℚ) + 1) / (n : ℚ))

/-- C7: for `n ≥ 1`, `splitSegment point n` returns exactly `n` points whose
`i`-th element (0-based) is `cursor + (point - cursor) * (i+1) / n`; the last
element is exactly the endpoint `point`, consecutive elements differ by the
constant step `(point - cursor) / n` in each coordinate, and for `n = 1` the
result is the one-element list `[point]`. -/
theorem c7_splitSegment_points (al : Autoleveller) (point : ℚ × ℚ) (n : ℕ)
    (hn : 1 ≤ n) :
    (splitSegment al point n).length = n ∧
    (∀ i, i < n → (splitSegment al point n)[i]? =
      some (al.lastPoint.1 + (point.1 - al.lastPoint.1) * ((i : ℚ) + 1) / (n : ℚ),
            al.lastPoint.2 + (point.2 - al.lastPoint.2) * ((i : ℚ) + 1) / (n : ℚ))) ∧
    (splitSegment al point n)[n - 1]? = some point ∧
    (∀ i a b, i + 1 < n → (splitSegment al point n)[i]? = some a →
      (splitSegment al point n)[i + 1]? = some b →
      b.1 - a.1 = (point.1 - al.lastPoint.1) / (n : ℚ) ∧
      b.2 - a.2 = (point.2 - al.lastPoint.2) / (n : ℚ)) ∧
    (n = 1 → splitSegment al point n = [point]) := by
  have hn0 : (n : ℚ) ≠ 0 := Nat.cast_ne_zero.mpr (by omega)
  have hform : ∀ i, i < n → (splitSegment al point n)[i]? =
      some (al.lastPoint.1 + (point.1 - al.lastPoint.1) * ((i : ℚ) + 1) / (n : ℚ),
            al.lastPoint.2 + (point.2 - al.lastPoint.2) * ((i : ℚ) + 1) / (n : ℚ)) := by
    intro i hi
    simp [splitSegment, List.getElem?_map, List.getElem?_range, hi]
  refine ⟨by simp [splitSegment], hform, ?_, ?_, ?_⟩
  · rw [hform (n - 1) (by omega)]
    have hcast : ((n - 1 : ℕ) : ℚ) + 1 = (n : ℚ) := by
      have : ((n - 1 : ℕ) : ℚ) = (n : ℚ) - 1 := by
        push_cast [Nat.cast_sub hn]
        ring
      rw [this]; ring
    rw [hcast]
    have h1 : ∀ c l : ℚ, l + (c - l) * (n : ℚ) / (n : ℚ) = c := by
      intro c l
      rw [mul_div_assoc, div_self hn0]
      ring
    rw [h1, h1]
  · intro i a b hi ha hb
    rw [hform i (by omega)] at ha
    rw [hform (i + 1) hi] at hb
    have ha' := Option.some.inj ha
    have hb' := Option.some.inj hb
    rw [← ha', ← hb']
    constructor <;> · push_cast; field_simp; ring
  · intro h1
    subst h1
    have hr : List.range 1 = [0] := rfl
    rw [splitSegment, hr]
    simp only [List.map_cons, List.map_nil, List.cons.injEq, and_true]
    rw [Prod.ext_iff]
    constructor <;> · push_cast; ring

/-- Witness for C7 at `n = 2`, cursor `(0,0)`, endpoint `(10,6)`: the
hypothesis `1 ≤ 2` holds, the result has two points and ends in the
endpoint. -/
theorem c7_splitSegment_points_witness :
    1 ≤ 2 ∧ (splitSegment blankAL (10, 6) 2).length = 2 ∧
      (splitSegment blankAL (10, 6) 2)[(1 : ℕ)]? = some ((10 : ℚ), (6 : ℚ)) := by
  refine ⟨by omega, (c7_splitSegment_points blankAL (10, 6) 2 (by omega)).1, ?_⟩
  have h := (c7_splitSegment_points blankAL (10, 6) 2 (by omega)).2.2.1
  simpa using h

/-- The data computed by `autoleveller::interpolatePoint`: the lower-left
grid indices of the cell containing the point and the two normalized
fractional offsets.  (The C++ function renders these into three inline
assignments; the offsets are printed with `%.5f`, which at an exact grid
vertex prints the exact value 0.) -/
structure InterpData where
  xminindex : ℤ
  yminindex : ℤ
  x_minus_x0_rel : ℚ
  y_minus_y0_rel : ℚ
deriving DecidableEq

/-- Shallow embedding of the arithmetic of `autoleveller::interpolatePoint`. -/
def interpolatePoint (al : Autoleveller) (point : ℚ × ℚ) : InterpData where
  xminindex := ⌊(point.1 - al.startPointX) / al.XProbeDist⌋
  yminindex := ⌊(point.2 - al.startPointY) / al.YProbeDist⌋
  x_minus_x0_rel := (point.1 - al.startPointX -
    (⌊(point.1 - al.startPointX) / al.XProbeDist⌋ : ℚ) * al.XProbeDist) / al.XProbeDist
  y_minus_y0_rel := (point.2 - al.startPointY -
    (⌊(point.2 - al.startPointY) / al.YProbeDist⌋ : ℚ) * al.YProbeDist) / al.YProbeDist

/-- The value of the bilinear-interpolation formula emitted by
`interpolatePoint`, read back as arithmetic: `#1` and `#2` interpolate the
two cell columns along Y, `#3` interpolates between them along X.  `z i j`
is the probed value stored in the table slot `getVarName(i, j)`. -/
def interpEval (z : ℤ → ℤ → ℚ) (d : InterpData) : ℚ :=
  let p1 := z d.xminindex (d.yminindex + 1)
  let p2 := z (d.xminindex + 1) (d.yminindex + 1)
  let p3 := z d.xminindex d.yminindex
  let p4 := z (d.xminindex + 1) d.yminindex
  let v1 := p3 + (p1 - p3) * d.y_minus_y0_rel
  let v2 := p4 + (p2 - p4) * d.y_minus_y0_rel
  v1 + (v2 - v1) * d.x_minus_x0_rel

/-- C5: at a point lying exactly on probe-grid vertex `(i, j)` the fractional
offsets computed by `interpolatePoint` are both 0, the cell indices are
exactly `(i, j)`, and the bilinear formula evaluates to the stored table
value `z i j` unchanged, for every table `z`. -/
theorem c5_interpolate_at_vertex (al : Autoleveller) (point : ℚ × ℚ) (i j : ℤ)
    (hX : al.XProbeDist ≠ 0) (hY : al.YProbeDist ≠ 0)
    (hp1 : point.1 = al.startPointX + (i : ℚ) * al.XProbeDist)
    (hp2 : point.2 = al.startPointY + (j : ℚ) * al.YProbeDist) :
    (interpolatePoint al point).xminindex = i ∧
    (interpolatePoint al point).yminindex = j ∧
    (interpolatePoint al point).x_minus_x0_rel = 0 ∧
    (interpolatePoint al point).y_minus_y0_rel = 0 ∧
    ∀ z : ℤ → ℤ → ℚ, interpEval z (interpolatePoint al point) = z i j := by
  have e1 : point.1 - al.startPointX = (i : ℚ) * al.XProbeDist := by rw [hp1]; ring
  have e2 : point.2 - al.startPointY = (j : ℚ) * al.YProbeDist := by rw [hp2]; ring
  have hfx : ⌊(point.1 - al.startPointX) / al.XProbeDist⌋ = i := by
    rw [e1, mul_div_assoc, div_self hX, mul_one, Int.floor_intCast]
  have hfy : ⌊(point.2 - al.startPointY) / al.YProbeDist⌋ = j := by
    rw [e2, mul_div_assoc, div_self hY, mul_one, Int.floor_intCast]
  have hxi : (interpolatePoint al point).xminindex = i := hfx
  have hyj : (interpolatePoint al point).yminindex = j := hfy
  have hrx : (interpolatePoint al point).x_minus_x0_rel = 0 := by
    show (point.1 - al.startPointX -
      (⌊(point.1 - al.startPointX) / al.XProbeDist⌋ : ℚ) * al.XProbeDist) / al.XProbeDist = 0
    rw [hfx, e1, sub_self, zero_div]
  have hry : (interpolatePoint al point).y_minus_y0_rel = 0 := by
    show (point.2 - al.startPointY -
      (⌊(point.2 - al.startPointY) / al.YProbeDist⌋ : ℚ) * al.YProbeDist) / al.YProbeDist = 0
    rw [hfy, e2, sub_self, zero_div]
  refine ⟨hxi, hyj, hrx, hry, ?_⟩
  intro z
  simp only [interpEval, hrx, hry, hxi, hyj, mul_zero, add_zero]

/-- Witness for C5 on the grid of `blankAL` (origin `(0,0)`, spacings 10) at
vertex `(2, 3)`, i.e. the point `(20, 30)`, with the table
`z i j = 100 i + j`. -/
theorem c5_interpolate_at_vertex_witness :
    blankAL.XProbeDist ≠ 0 ∧ blankAL.YProbeDist ≠ 0 ∧
    (20 : ℚ) = blankAL.startPointX + ((2 : ℤ) : ℚ) * blankAL.XProbeDist ∧
    (30 : ℚ) = blankAL.startPointY + ((3 : ℤ) : ℚ) * blankAL.YProbeDist ∧
    interpEval (fun a b => (a : ℚ) * 100 + (b : ℚ)) (interpolatePoint blankAL (20, 30)) =
      ((2 : ℤ) : ℚ) * 100 + ((3 : ℤ) : ℚ) := by
  have hX : blankAL.XProbeDist ≠ 0 := by norm_num [blankAL]
  have hY : blankAL.YProbeDist ≠ 0 := by norm_num [blankAL]
  have hp1 : ((20 : ℚ), (30 : ℚ)).1 = blankAL.startPointX + ((2 : ℤ) : ℚ) * blankAL.XProbeDist := by
    norm_num [blankAL]
  have hp2 : ((20 : ℚ), (30 : ℚ)).2 = blankAL.startPointY + ((3 : ℤ) : ℚ) * blankAL.YProbeDist := by
    norm_num [blankAL]
  have h := c5_interpolate_at_vertex blankAL (20, 30) 2 3 hX hY hp1 hp2
  exact ⟨hX, hY, hp1, hp2, h.2.2.2.2 _⟩

/-- Euclidean distance between two toolpath points, as computed by
`boost::geometry::distance` on cartesian 2D points. -/
noncomputable def pointDistance (a b : ℚ × ℚ) : ℝ :=
  Real.sqrt (((b.1 - a.1 : ℚ) : ℝ) ^ 2 + ((b.2 - a.2 : ℚ) : ℝ) ^ 2)

/-- Shallow embedding of `autoleveller::numOfSubsegments`: if the move is
X-aligned within the quantization tolerance the step is the Y spacing, if it
is Y-aligned the step is the X spacing, otherwise the average spacing; the
result is `ceil(distance / step)`.  The C++ `unsigned int` return is modelled
as `ℤ` (the ceiling is nonnegative whenever the chosen spacing is
positive). -/
noncomputable def numOfSubsegments (al : Autoleveller) (point : ℚ × ℚ) : ℤ :=
  if |al.lastPoint.1 - point.1| ≤ al.quantization_error then
    ⌈pointDistance al.lastPoint point / (al.YProbeDist : ℝ)⌉
  else if |al.lastPoint.2 - point.2| ≤ al.quantization_error then
    ⌈pointDistance al.lastPoint point / (al.XProbeDist : ℝ)⌉
  else
    ⌈pointDistance al.lastPoint point / (al.averageProbeDist : ℝ)⌉

/-- One item of emitted G-code, abstracted to the numeric payload that the
`boost::format` templates receive: a call of the Z-corrected G01 subroutine
with target X/Y, an inline interpolation-formula block, an inline corrected
`X.. Y.. Z[#3+#4]` move, or the inline `G01 Z[zwork+#returnVar]` move of
`g01Corrected` in the Custom dialect. -/
inductive Emitted where
  | subCall (x y : ℚ)
  | interp (d : InterpData)
  | moveXYZcorr (x y : ℚ)
  | moveZcorr
deriving DecidableEq

/-- Shallow embedding of `autoleveller::addChainPoint`: split the move into
sub-segments, emit one corrected move per sub-segment (a subroutine call for
LINUXCNC/MACH4/MACH3, an inline interpolation block plus move for Custom),
then assign `lastPoint = point`. -/
noncomputable def addChainPoint (al : Autoleveller) (point : ℚ × ℚ) :
    List Emitted × Autoleveller :=
  let subsegments := splitSegment al point (numOfSubsegments al point).toNat
  let outputStr :=
    if al.software = Software.LINUXCNC ∨ al.software = Software.MACH4 ∨
       al.software = Software.MACH3 then
      subsegments.map fun p => Emitted.subCall p.1 p.2
    else
      subsegments.flatMap fun p =>
        [Emitted.interp (interpolatePoint al p), Emitted.moveXYZcorr p.1 p.2]
  (outputStr, { al with lastPoint := point })

/-- Shallow embedding of `autoleveller::g01Corrected`: emit one corrected
move for `point`; the function reads the object but assigns no member, so
the state comes back unchanged. -/
def g01Corrected (al : Autoleveller) (point : ℚ × ℚ) :
    List Emitted × Autoleveller :=
  (if al.software = Software.LINUXCNC ∨ al.software = Software.MACH4 ∨
      al.software = Software.MACH3 then
    [Emitted.subCall point.1 point.2]
  else
    [Emitted.interp (interpolatePoint al point), Emitted.moveZcorr], al)

/-- C4 counterexample: `g01Corrected` does not update the cursor.  With the
cursor at `(0,0)`, after `g01Corrected((1,1))` the stored last point is
still `(0,0)`, not `(1,1)` as the claim states. -/
theorem c4_cursor_counterexample :
    (g01Corrected blankAL (1, 1)).2.lastPoint ≠ ((1 : ℚ), (1 : ℚ)) := by
  show blankAL.lastPoint ≠ ((1 : ℚ), (1 : ℚ))
  norm_num [blankAL]

/-- C4 (amended): `addChainPoint(point)` always sets the cursor to `point`,
for every dialect and prior state; `g01Corrected` returns the object state
unchanged (in particular the cursor keeps its previous value). -/
theorem c4_cursor_update (al : Autoleveller) (point : ℚ × ℚ) :
    (addChainPoint al point).2.lastPoint = point ∧
    (g01Corrected al point).2 = al :=
  ⟨rfl, rfl⟩

/-- C3 counterexample: a zero-length move yields zero sub-segments.  With
cursor `(0,0)`, zero tolerance and Y spacing 10, `numOfSubsegments((0,0))`
returns `ceil(0/10) = 0`, so the count is not `never zero`. -/
theorem c3_subsegments_counterexample :
    numOfSubsegments blankAL (0, 0) = 0 := by
  rw [numOfSubsegments]
  rw [if_pos (by norm_num [blankAL])]
  have hd : pointDistance blankAL.lastPoint (0, 0) = 0 := by
    norm_num [pointDistance, blankAL, Real.sqrt_zero]
  rw [hd, zero_div, Int.ceil_zero]

lemma one_le_ceil_div_of_pos {d s : ℝ} (hd : 0 < d) (hs : 0 < s) :
    1 ≤ ⌈d / s⌉ := by
  have h := Int.ceil_pos.mpr (div_pos hd hs)
  omega

lemma pointDistance_pos {a b : ℚ × ℚ} (hne : a ≠ b) : 0 < pointDistance a b := by
  rw [pointDistance]
  apply Real.sqrt_pos.mpr
  have hab : b.1 - a.1 ≠ 0 ∨ b.2 - a.2 ≠ 0 := by
    by_contra hc
    push_neg at hc
    apply hne
    have h1 : a.1 = b.1 := by have := hc.1; linarith [sub_eq_zero.mp this]
    have h2 : a.2 = b.2 := by have := hc.2; linarith [sub_eq_zero.mp this]
    exact Prod.ext h1 h2
  rcases hab with h | h
  · have h0 : ((b.1 - a.1 : ℚ) : ℝ) ≠ 0 := by exact_mod_cast h
    have := lt_of_le_of_ne (sq_nonneg ((b.1 - a.1 : ℚ) : ℝ)) (Ne.symm (pow_ne_zero 2 h0))
    have hnn := sq_nonneg ((b.2 - a.2 : ℚ) : ℝ)
    linarith
  · have h0 : ((b.2 - a.2 : ℚ) : ℝ) ≠ 0 := by exact_mod_cast h
    have := lt_of_le_of_ne (sq_nonneg ((b.2 - a.2 : ℚ) : ℝ)) (Ne.symm (pow_ne_zero 2 h0))
    have hnn := sq_nonneg ((b.1 - a.1 : ℚ) : ℝ)
    linarith

/-- C3 (amended): `numOfSubsegments(point)` returns
`ceil(distance(cursor, point) / stepSize)` with the step size chosen by the
alignment rules (Y spacing for constant X within tolerance, X spacing for
constant Y, average spacing otherwise); when the spacings are positive the
count is at least 1 for every move of positive length (`point ≠ cursor`),
but a zero-length move yields 0. -/
theorem c3_subsegment_count (al : Autoleveller) (point : ℚ × ℚ)
    (hY : 0 < al.YProbeDist) (hX : 0 < al.XProbeDist)
    (hA : 0 < al.averageProbeDist) (hne : al.lastPoint ≠ point) :
    numOfSubsegments al point =
      (if |al.lastPoint.1 - point.1| ≤ al.quantization_error then
        ⌈pointDistance al.lastPoint point / (al.YProbeDist : ℝ)⌉
      else if |al.lastPoint.2 - point.2| ≤ al.quantization_error then
        ⌈pointDistance al.lastPoint point / (al.XProbeDist : ℝ)⌉
      else
        ⌈pointDistance al.lastPoint point / (al.averageProbeDist : ℝ)⌉) ∧
    1 ≤ numOfSubsegments al point := by
  refine ⟨rfl, ?_⟩
  have hd : 0 < pointDistance al.lastPoint point := pointDistance_pos hne
  rw [numOfSubsegments]
  split
  · exact one_le_ceil_div_of_pos hd (by exact_mod_cast hY)
  · split
    · exact one_le_ceil_div_of_pos hd (by exact_mod_cast hX)
    · exact one_le_ceil_div_of_pos hd (by exact_mod_cast hA)

/-- Witness for C3 at the scenario of the claim: cursor `(0,0)`, move to
`(0,25)`, spacings 10, zero tolerance.  The hypotheses hold, the amended
theorem applies, and the count evaluates to `ceil(25/10) = 3`. -/
theorem c3_subsegment_count_witness :
    (0 < blankAL.YProbeDist ∧ 0 < blankAL.XProbeDist ∧
      0 < blankAL.averageProbeDist ∧ blankAL.lastPoint ≠ ((0 : ℚ), (25 : ℚ))) ∧
    1 ≤ numOfSubsegments blankAL (0, 25) ∧
    numOfSubsegments blankAL (0, 25) = 3 := by
  have h1 : 0 < blankAL.YProbeDist := by norm_num [blankAL]
  have h2 : 0 < blankAL.XProbeDist := by norm_num [blankAL]
  have h3 : 0 < blankAL.averageProbeDist := by norm_num [blankAL]
  have h4 : blankAL.lastPoint ≠ ((0 : ℚ), (25 : ℚ)) := by
    norm_num [blankAL, Prod.ext_iff]
  refine ⟨⟨h1, h2, h3, h4⟩,
    (c3_subsegment_count blankAL (0, 25) h1 h2 h3 h4).2, ?_⟩
  rw [numOfSubsegments]
  rw [if_pos (by norm_num [blankAL])]
  have hd : pointDistance blankAL.lastPoint (0, 25) = 25 := by
    rw [pointDistance]
    norm_num [blankAL]
    rw [show ((625 : ℝ)) = 25 ^ 2 by norm_num]
    exact Real.sqrt_sq (by norm_num)
  rw [hd]
  have : (blankAL.YProbeDist : ℝ) = 10 := by norm_num [blankAL]
  rw [this]
  rw [Int.ceil_eq_iff]
  constructor <;> norm_num

/-- Extended rationals: the values reachable in `computeWorkarea`, whose
accumulators start from the IEEE `+inf` / `-inf` sentinels of
`std::numeric_limits<double>::infinity()` while every toolpath coordinate is
finite. -/
inductive XQ where
  | pinf
  | ninf
  | fin (q : ℚ)
deriving DecidableEq

/-- IEEE `<` on the extended values. -/
def XQ.ltb : XQ → XQ → Bool
  | XQ.ninf, XQ.ninf => false
  | XQ.ninf, _ => true
  | XQ.fin _, XQ.pinf => true
  | XQ.fin a, XQ.fin b => decide (a < b)
  | XQ.fin _, XQ.ninf => false
  | XQ.pinf, _ => false

/-- C++ `std::min(a, b)`: `b < a ? b : a`. -/
def XQ.minv (a b : XQ) : XQ := if XQ.ltb b a then b else a

/-- C++ `std::max(a, b)`: `a < b ? b : a`. -/
def XQ.maxv (a b : XQ) : XQ := if XQ.ltb a b then b else a

/-- Subtraction of a finite value, with IEEE infinity absorption. -/
def XQ.subQ : XQ → ℚ → XQ
  | XQ.pinf, _ => XQ.pinf
  | XQ.ninf, _ => XQ.ninf
  | XQ.fin a, q => XQ.fin (a - q)

/-- Value of the coordinate `f` at the iterator returned by
`std::min_element(path.begin(), path.end(), f(_1) < f(_2))`.  On an empty
path the C++ dereferences the end iterator (undefined); 0 stands in here,
and every claim only concerns non-empty paths. -/
def minElemBy (f : ℚ × ℚ → ℚ) : List (ℚ × ℚ) → ℚ
  | [] => 0
  | x :: xs => xs.foldl (fun acc r => if f r < acc then f r else acc) (f x)

/-- Value of the coordinate `f` at the iterator returned by
`std::max_element` with the same comparator. -/
def maxElemBy (f : ℚ × ℚ → ℚ) : List (ℚ × ℚ) → ℚ
  | [] => 0
  | x :: xs => xs.foldl (fun acc r => if acc < f r then f r else acc) (f x)

/-- Shallow embedding of `autoleveller::computeWorkarea`: fold the per-path
min/max coordinates into the sentinel-initialized rectangle, then shrink the
near corner by `offset + quantization_error` and the far corner by
`offset - quantization_error`. -/
def computeWorkarea (al : Autoleveller) (toolpaths : List (List (ℚ × ℚ))) :
    (XQ × XQ) × (XQ × XQ) :=
  let w := toolpaths.foldl (fun w path =>
      ((XQ.minv w.1.1 (XQ.fin (minElemBy Prod.fst path)),
        XQ.minv w.1.2 (XQ.fin (minElemBy Prod.snd path))),
       (XQ.maxv w.2.1 (XQ.fin (maxElemBy Prod.fst path)),
        XQ.maxv w.2.2 (XQ.fin (maxElemBy Prod.snd path)))))
    ((XQ.pinf, XQ.pinf), (XQ.ninf, XQ.ninf))
  ((XQ.subQ w.1.1 (al.xoffset + al.quantization_error),
    XQ.subQ w.1.2 (al.yoffset + al.quantization_error)),
   (XQ.subQ w.2.1 (al.xoffset - al.quantization_error),
    XQ.subQ w.2.2 (al.yoffset - al.quantization_error)))

lemma ite_lt_eq_min (a b : ℚ) : (if b < a then b else a) = min a b := by
  rw [min_def]
  split_ifs with h1 h2 h3
  · linarith
  · rfl
  · rfl
  · linarith

lemma ite_lt_eq_max (a b : ℚ) : (if a < b then b else a) = max a b := by
  rw [max_def]
  split_ifs with h1 h2 h3
  · rfl
  · linarith
  · linarith
  · rfl

lemma foldl_funext {g h : ℚ → (ℚ × ℚ) → ℚ} (heq : ∀ a r, g a r = h a r) :
    ∀ (l : List (ℚ × ℚ)) (a : ℚ), l.foldl g a = l.foldl h a := by
  intro l
  induction l with
  | nil => intro a; rfl
  | cons x xs ih => intro a; rw [List.foldl_cons, List.foldl_cons, heq, ih]

lemma minElemBy_cons (f : ℚ × ℚ → ℚ) (x : ℚ × ℚ) (xs : List (ℚ × ℚ)) :
    minElemBy f (x :: xs) = (xs.map f).foldl min (f x) := by
  rw [minElemBy, List.foldl_map]
  exact foldl_funext (fun a r => by rw [ite_lt_eq_min]) xs (f x)

lemma maxElemBy_cons (f : ℚ × ℚ → ℚ) (x : ℚ × ℚ) (xs : List (ℚ × ℚ)) :
    maxElemBy f (x :: xs) = (xs.map f).foldl max (f x) := by
  rw [maxElemBy, List.foldl_map]
  exact foldl_funext (fun a r => by rw [ite_lt_eq_max]) xs (f x)

lemma foldl_op_shift (op : ℚ → ℚ → ℚ)
    (hassoc : ∀ a b c, op (op a b) c = op a (op b c)) :
    ∀ (l : List ℚ) (a b : ℚ), l.foldl op (op a b) = op a (l.foldl op b) := by
  intro l
  induction l with
  | nil => intro a b; rfl
  | cons c l ih =>
    intro a b
    rw [List.foldl_cons, hassoc, ih, List.foldl_cons]

lemma map_foldl_of_cons (op : ℚ → ℚ → ℚ)
    (hassoc : ∀ a b c, op (op a b) c = op a (op b c))
    (f : ℚ × ℚ → ℚ) (x : ℚ × ℚ) (xs : List (ℚ × ℚ)) (a : ℚ) :
    ((x :: xs).map f).foldl op a = op a ((xs.map f).foldl op (f x)) := by
  rw [List.map_cons, List.foldl_cons, foldl_op_shift op hassoc]

lemma flat_foldl (op : ℚ → ℚ → ℚ)
    (hassoc : ∀ a b c, op (op a b) c = op a (op b c))
    (f : ℚ × ℚ → ℚ) (pv : List (ℚ × ℚ) → ℚ)
    (hpv : ∀ p : List (ℚ × ℚ), p ≠ [] → ∀ a, (p.map f).foldl op a = op a (pv p)) :
    ∀ (tps : List (List (ℚ × ℚ))), (∀ p ∈ tps, p ≠ []) → ∀ a : ℚ,
      ((tps.flatMap id).map f).foldl op a =
        tps.foldl (fun acc p => op acc (pv p)) a := by
  intro tps
  induction tps with
  | nil => intro _ a; rfl
  | cons p ps ih =>
    intro hne a
    rw [List.flatMap_cons, List.map_append, List.foldl_append]
    simp only [id_eq]
    rw [hpv p (hne p (List.mem_cons_self p ps)) a]
    rw [ih (fun q hq => hne q (List.mem_cons_of_mem p hq)) (op a (pv p))]
    rfl

lemma XQ_minv_fin_fin (a b : ℚ) : XQ.minv (XQ.fin a) (XQ.fin b) = XQ.fin (min a b) := by
  simp only [XQ.minv, XQ.ltb, decide_eq_true_eq]
  rw [← ite_lt_eq_min]
  split <;> rfl

lemma XQ_maxv_fin_fin (a b : ℚ) : XQ.maxv (XQ.fin a) (XQ.fin b) = XQ.fin (max a b) := by
  simp only [XQ.maxv, XQ.ltb, decide_eq_true_eq]
  rw [← ite_lt_eq_max]
  split <;> rfl

lemma foldl_XQ_minv (g : List (ℚ × ℚ) → ℚ) :
    ∀ (ps : List (List (ℚ × ℚ))) (a : ℚ),
      ps.foldl (fun acc p => XQ.minv acc (XQ.fin (g p))) (XQ.fin a) =
        XQ.fin (ps.foldl (fun acc p => min acc (g p)) a) := by
  intro ps
  induction ps with
  | nil => intro a; rfl
  | cons p ps ih =>
    intro a
    rw [List.foldl_cons, XQ_minv_fin_fin, ih, List.foldl_cons]

lemma foldl_XQ_maxv (g : List (ℚ × ℚ) → ℚ) :
    ∀ (ps : List (List (ℚ × ℚ))) (a : ℚ),
      ps.foldl (fun acc p => XQ.maxv acc (XQ.fin (g p))) (XQ.fin a) =
        XQ.fin (ps.foldl (fun acc p => max acc (g p)) a) := by
  intro ps
  induction ps with
  | nil => intro a; rfl
  | cons p ps ih =>
    intro a
    rw [List.foldl_cons, XQ_maxv_fin_fin, ih, List.foldl_cons]

/-- The simultaneous four-component fold of `computeWorkarea` splits into
four independent folds. -/
lemma workarea_fold_components :
    ∀ (tps : List (List (ℚ × ℚ))) (w : (XQ × XQ) × (XQ × XQ)),
      tps.foldl (fun w path =>
        ((XQ.minv w.1.1 (XQ.fin (minElemBy Prod.fst path)),
          XQ.minv w.1.2 (XQ.fin (minElemBy Prod.snd path))),
         (XQ.maxv w.2.1 (XQ.fin (maxElemBy Prod.fst path)),
          XQ.maxv w.2.2 (XQ.fin (maxElemBy Prod.snd path))))) w =
      ((tps.foldl (fun a p => XQ.minv a (XQ.fin (minElemBy Prod.fst p))) w.1.1,
        tps.foldl (fun a p => XQ.minv a (XQ.fin (minElemBy Prod.snd p))) w.1.2),
       (tps.foldl (fun a p => XQ.maxv a (XQ.fin (maxElemBy Prod.fst p))) w.2.1,
        tps.foldl (fun a p => XQ.maxv a (XQ.fin (maxElemBy Prod.snd p))) w.2.2)) := by
  intro tps
  induction tps with
  | nil => intro w; rfl
  | cons p ps ih => intro w; rw [List.foldl_cons, ih]; rfl

lemma min_assoc_q (a b c : ℚ) : min (min a b) c = min a (min b c) := min_assoc a b c

lemma max_assoc_q (a b c : ℚ) : max (max a b) c = max a (max b c) := max_assoc a b c

lemma min_path_value (f : ℚ × ℚ → ℚ) :
    ∀ p : List (ℚ × ℚ), p ≠ [] → ∀ a, (p.map f).foldl min a = min a (minElemBy f p) := by
  intro p hp a
  cases p with
  | nil => exact absurd rfl hp
  | cons y ys =>
    rw [map_foldl_of_cons min min_assoc_q f y ys a, ← minElemBy_cons]

lemma max_path_value (f : ℚ × ℚ → ℚ) :
    ∀ p : List (ℚ × ℚ), p ≠ [] → ∀ a, (p.map f).foldl max a = max a (maxElemBy f p) := by
  intro p hp a
  cases p with
  | nil => exact absurd rfl hp
  | cons y ys =>
    rw [map_foldl_of_cons max max_assoc_q f y ys a, ← maxElemBy_cons]

/-- The min component of the code's fold equals the minimum of the flattened
coordinate list. -/
lemma code_min_component (f : ℚ × ℚ → ℚ) (x : ℚ × ℚ) (xs : List (ℚ × ℚ))
    (ps : List (List (ℚ × ℚ))) (hps : ∀ p ∈ ps, p ≠ []) (m : ℚ)
    (hm : ((((x :: xs) :: ps).flatMap id).map f).min? = some m) :
    ((x :: xs) :: ps).foldl (fun a p => XQ.minv a (XQ.fin (minElemBy f p)))
      XQ.pinf = XQ.fin m := by
  have hflat : ((((x :: xs) :: ps).flatMap id).map f)
      = f x :: (xs.map f ++ (ps.flatMap id).map f) := by
    rw [List.flatMap_cons]
    show (((x :: xs) ++ ps.flatMap id).map f) = _
    rw [List.cons_append, List.map_cons, List.map_append]
  rw [hflat] at hm
  have hm' : (xs.map f ++ (ps.flatMap id).map f).foldl min (f x) = m := by
    simpa [List.min?] using hm
  rw [List.foldl_cons]
  have h0 : XQ.minv XQ.pinf (XQ.fin (minElemBy f (x :: xs)))
      = XQ.fin (minElemBy f (x :: xs)) := rfl
  rw [h0, foldl_XQ_minv]
  congr 1
  rw [← hm', List.foldl_append, ← minElemBy_cons]
  rw [flat_foldl min min_assoc_q f (minElemBy f) (min_path_value f) ps hps]

/-- The max component of the code's fold equals the maximum of the flattened
coordinate list. -/
lemma code_max_component (f : ℚ × ℚ → ℚ) (x : ℚ × ℚ) (xs : List (ℚ × ℚ))
    (ps : List (List (ℚ × ℚ))) (hps : ∀ p ∈ ps, p ≠ []) (m : ℚ)
    (hm : ((((x :: xs) :: ps).flatMap id).map f).max? = some m) :
    ((x :: xs) :: ps).foldl (fun a p => XQ.maxv a (XQ.fin (maxElemBy f p)))
      XQ.ninf = XQ.fin m := by
  have hflat : ((((x :: xs) :: ps).flatMap id).map f)
      = f x :: (xs.map f ++ (ps.flatMap id).map f) := by
    rw [List.flatMap_cons]
    show (((x :: xs) ++ ps.flatMap id).map f) = _
    rw [List.cons_append, List.map_cons, List.map_append]
  rw [hflat] at hm
  have hm' : (xs.map f ++ (ps.flatMap id).map f).foldl max (f x) = m := by
    simpa [List.max?] using hm
  rw [List.foldl_cons]
  have h0 : XQ.maxv XQ.ninf (XQ.fin (maxElemBy f (x :: xs)))
      = XQ.fin (maxElemBy f (x :: xs)) := rfl
  rw [h0, foldl_XQ_maxv]
  congr 1
  rw [← hm', List.foldl_append, ← maxElemBy_cons]
  rw [flat_foldl max max_assoc_q f (maxElemBy f) (max_path_value f) ps hps]

/-- C8: for a non-empty collection of non-empty toolpaths, `computeWorkarea`
returns the bounding box of all points grown by the quantization tolerance:
near corner `(min x - (xoffset + tol), min y - (yoffset + tol))`, far corner
`(max x - (xoffset - tol), max y - (yoffset - tol))`; the empty collection
yields the infinite sentinel rectangle (the offset shift leaves the
infinities unchanged). -/
theorem c8_computeWorkarea_box (al : Autoleveller) (tps : List (List (ℚ × ℚ))) :
    (tps = [] → computeWorkarea al tps =
      ((XQ.pinf, XQ.pinf), (XQ.ninf, XQ.ninf))) ∧
    (tps ≠ [] → (∀ p ∈ tps, p ≠ []) →
      ∀ m₁ m₂ m₃ m₄ : ℚ,
        ((tps.flatMap id).map Prod.fst).min? = some m₁ →
        ((tps.flatMap id).map Prod.snd).min? = some m₂ →
        ((tps.flatMap id).map Prod.fst).max? = some m₃ →
        ((tps.flatMap id).map Prod.snd).max? = some m₄ →
        computeWorkarea al tps =
          ((XQ.fin (m₁ - (al.xoffset + al.quantization_error)),
            XQ.fin (m₂ - (al.yoffset + al.quantization_error))),
           (XQ.fin (m₃ - (al.xoffset - al.quantization_error)),
            XQ.fin (m₄ - (al.yoffset - al.quantization_error))))) := by
  constructor
  · intro h; subst h; rfl
  · intro hne hall m₁ m₂ m₃ m₄ hm₁ hm₂ hm₃ hm₄
    obtain ⟨p, ps, rfl⟩ : ∃ p ps, tps = p :: ps := by
      cases tps with
      | nil => exact absurd rfl hne
      | cons p ps => exact ⟨p, ps, rfl⟩
    obtain ⟨x, xs, rfl⟩ : ∃ x xs, p = x :: xs := by
      cases p with
      | nil => exact absurd rfl (hall [] (List.mem_cons_self _ _))
      | cons x xs => exact ⟨x, xs, rfl⟩
    have hps : ∀ q ∈ ps, q ≠ [] :=
      fun q hq => hall q (List.mem_cons_of_mem _ hq)
    have h1 := code_min_component Prod.fst x xs ps hps m₁ hm₁
    have h2 := code_min_component Prod.snd x xs ps hps m₂ hm₂
    have h3 := code_max_component Prod.fst x xs ps hps m₃ hm₃
    have h4 := code_max_component Prod.snd x xs ps hps m₄ hm₄
    show ((XQ.subQ (((x :: xs) :: ps).foldl (fun w path =>
        ((XQ.minv w.1.1 (XQ.fin (minElemBy Prod.fst path)),
          XQ.minv w.1.2 (XQ.fin (minElemBy Prod.snd path))),
         (XQ.maxv w.2.1 (XQ.fin (maxElemBy Prod.fst path)),
          XQ.maxv w.2.2 (XQ.fin (maxElemBy Prod.snd path)))))
        ((XQ.pinf, XQ.pinf), (XQ.ninf, XQ.ninf))).1.1
          (al.xoffset + al.quantization_error), _), _) = _
    rw [workarea_fold_components]
    dsimp only
    rw [h1, h2, h3, h4]
    rfl

/-- Witness for C8 on the toolpaths `[[(1,2),(3,4)], [(0,5)]]`: the
hypotheses hold (non-empty collection of non-empty paths, coordinate
extrema 0, 2, 3, 5) and the box follows from the theorem. -/
theorem c8_computeWorkarea_box_witness :
    (([[((1 : ℚ), (2 : ℚ)), (3, 4)], [(0, 5)]] : List (List (ℚ × ℚ))) ≠ [] ∧
     (∀ p ∈ ([[((1 : ℚ), (2 : ℚ)), (3, 4)], [(0, 5)]] : List (List (ℚ × ℚ))), p ≠ [])) ∧
    computeWorkarea blankAL [[(1, 2), (3, 4)], [(0, 5)]] =
      ((XQ.fin (0 - (blankAL.xoffset + blankAL.quantization_error)),
        XQ.fin (2 - (blankAL.yoffset + blankAL.quantization_error))),
       (XQ.fin (3 - (blankAL.xoffset - blankAL.quantization_error)),
        XQ.fin (5 - (blankAL.yoffset - blankAL.quantization_error)))) := by
  have hne : ([[((1 : ℚ), (2 : ℚ)), (3, 4)], [(0, 5)]] : List (List (ℚ × ℚ))) ≠ [] := by
    simp
  have hall : ∀ p ∈ ([[((1 : ℚ), (2 : ℚ)), (3, 4)], [(0, 5)]] : List (List (ℚ × ℚ))),
      p ≠ [] := by
    intro p hp
    rcases List.mem_cons.mp hp with h | h
    · subst h; simp
    · rcases List.mem_cons.mp h with h2 | h2
      · subst h2; simp
      · simp at h2
  have hm₁ : ((([[((1 : ℚ), (2 : ℚ)), (3, 4)], [(0, 5)]] :
      List (List (ℚ × ℚ))).flatMap id).map Prod.fst).min? = some 0 := by
    norm_num [List.min?, min_def]
  have hm₂ : ((([[((1 : ℚ), (2 : ℚ)), (3, 4)], [(0, 5)]] :
      List (List (ℚ × ℚ))).flatMap id).map Prod.snd).min? = some 2 := by
    norm_num [List.min?, min_def]
  have hm₃ : ((([[((1 : ℚ), (2 : ℚ)), (3, 4)], [(0, 5)]] :
      List (List (ℚ × ℚ))).flatMap id).map Prod.fst).max? = some 3 := by
    norm_num [List.max?, max_def]
  have hm₄ : ((([[((1 : ℚ), (2 : ℚ)), (3, 4)], [(0, 5)]] :
      List (List (ℚ × ℚ))).flatMap id).map Prod.snd).max? = some 5 := by
    norm_num [List.max?, max_def]
  exact ⟨⟨hne, hall⟩,
    (c8_computeWorkarea_box blankAL [[(1, 2), (3, 4)], [(0, 5)]]).2
      hne hall 0 2 3 5 hm₁ hm₂ hm₃ hm₄⟩

/-- The configuration options the constructor reads (the
`boost::program_options::variables_map` entries used by the
member-initializer list). -/
structure ALOptions where
  metric : Bool
  metricoutput : Bool
  zwork : ℚ
  zsafe : ℚ
  al_x : ℚ
  al_y : ℚ
  al_probefeed : ℚ
  software : Software
deriving DecidableEq

/-- The `unitconv` member-initializer: input-units to output-units factor. -/
def unitconvOf (o : ALOptions) : ℚ :=
  if o.metric then (if o.metricoutput then 1 else 1 / (25.4 : ℚ))
  else (if o.metricoutput then (25.4 : ℚ) else 1)

/-- The `cfactor` member-initializer. -/
def cfactorOf (o : ALOptions) : ℚ := if o.metricoutput then (25.4 : ℚ) else 1

/-- Shallow embedding of the depth-relevant part of the `autoleveller`
constructor.  `zwork` is the `zwork` option times `unitconv` (printed with
`%.5f`); `zprobe` and `zsafe` are both the `zsafe` option times `unitconv`
(printed with `%.3f`); `zfail` is `FIXED_FAIL_DEPTH_MM` or
`FIXED_FAIL_DEPTH_IN` depending on `metricoutput` only.  Those two
compile-time constants live in the class header, which is not part of the
sources here; their values are irrelevant to the claims, so they are passed
in as the parameters `failMM` / `failIN`.  The grid fields are not
initialized by the C++ constructor (they are filled by `prepareWorkarea`);
they are zero-initialized here. -/
def mkAutoleveller (failMM failIN : ℚ) (o : ALOptions)
    (quantization_error xoffset yoffset : ℚ) (tileInfo : TileInfo) : Autoleveller where
  software := o.software
  unitconv := unitconvOf o
  cfactor := cfactorOf o
  XProbeDistRequired := o.al_x * unitconvOf o
  YProbeDistRequired := o.al_y * unitconvOf o
  zwork := o.zwork * unitconvOf o
  zprobe := o.zsafe * unitconvOf o
  zsafe := o.zsafe * unitconvOf o
  zfail := if o.metricoutput then failMM else failIN
  quantization_error := quantization_error * cfactorOf o
  xoffset := xoffset
  yoffset := yoffset
  tileInfo := tileInfo
  startPointX := 0
  startPointY := 0
  numXPoints := 2
  numYPoints := 2
  XProbeDist := 0
  YProbeDist := 0
  averageProbeDist := 0
  lastPoint := (0, 0)

/-- The Z payload of the emitted `G0 Z.. ( Move Z to safe height )` move
(header line `of << "G0 Z" << zsafe << ...`). -/
def headerSafeHeightMove (al : Autoleveller) : ℚ := al.zsafe

/-- The Z payload of the emitted `G0 Z.. ( Move Z to probe height )` move
(header line `of << "G0 Z" << zprobe << ...`). -/
def headerProbeHeightMove (al : Autoleveller) : ℚ := al.zprobe

/-- The Z payload of the emitted probe command
(`of << probeCode .. << " Z" << zfail << " F" << feedrate ..`). -/
def headerProbeZFail (al : Autoleveller) : ℚ := al.zfail

/-- The working depth written into the corrected moves
(`G01 ... Z[zwork+#15]` in the footer, `#4 = zwork` in the Custom header). -/
def emittedWorkDepth (al : Autoleveller) : ℚ := al.zwork

/-- Concrete option set for the C9 counterexample. -/
def exOpts1 : ALOptions where
  metric := true
  metricoutput := true
  zwork := -1
  zsafe := 5
  al_x := 10
  al_y := 10
  al_probefeed := 100
  software := Software.CUSTOM

/-- Second option set: every configured depth differs from `exOpts1`. -/
def exOpts2 : ALOptions := { exOpts1 with zwork := -2, zsafe := 7 }

/-- C9 counterexample: the probe-height move and the probe command do not
carry independently configured depths.  With the fail-depth header constants
fixed (arbitrarily) at -1 and -2: changing every configured depth option
(`zwork` from -1 to -2, `zsafe` from 5 to 7) leaves the emitted probe-fail
depth unchanged, while the emitted 'Move Z to probe height' value tracks
the safe-height option `zsafe` (5 and 7 respectively, unit factor 1), so
there is no separate configured probe height and no configured probe-fail
depth. -/
theorem c9_depths_counterexample :
    exOpts1.zwork ≠ exOpts2.zwork ∧
    exOpts1.zsafe ≠ exOpts2.zsafe ∧
    headerProbeZFail (mkAutoleveller (-1) (-2) exOpts1 0 0 0 blankAL.tileInfo) =
      headerProbeZFail (mkAutoleveller (-1) (-2) exOpts2 0 0 0 blankAL.tileInfo) ∧
    headerProbeHeightMove (mkAutoleveller (-1) (-2) exOpts1 0 0 0 blankAL.tileInfo) = 5 ∧
    headerProbeHeightMove (mkAutoleveller (-1) (-2) exOpts2 0 0 0 blankAL.tileInfo) = 7 := by
  refine ⟨by norm_num [exOpts1, exOpts2], by norm_num [exOpts1, exOpts2], rfl, ?_, ?_⟩
  · norm_num [headerProbeHeightMove, mkAutoleveller, unitconvOf, exOpts1]
  · norm_num [headerProbeHeightMove, mkAutoleveller, unitconvOf, exOpts2, exOpts1]

/-- C9 (amended): the emitted depths are determined as follows — the working
depth is the configured `zwork` times the unit factor, the safe-height move
and the probe-height move both carry the configured `zsafe` times the unit
factor (there is no separate probe-height option), and the probe command's
fail depth is a fixed header constant selected only by the output-units
flag, unaffected by every configured depth. -/
theorem c9_emitted_depths (failMM failIN : ℚ) (o : ALOptions)
    (qe xo yo : ℚ) (t : TileInfo) :
    emittedWorkDepth (mkAutoleveller failMM failIN o qe xo yo t) =
      o.zwork * unitconvOf o ∧
    headerSafeHeightMove (mkAutoleveller failMM failIN o qe xo yo t) =
      o.zsafe * unitconvOf o ∧
    headerProbeHeightMove (mkAutoleveller failMM failIN o qe xo yo t) =
      o.zsafe * unitconvOf o ∧
    headerProbeZFail (mkAutoleveller failMM failIN o qe xo yo t) =
      (if o.metricoutput then failMM else failIN) :=
  ⟨rfl, rfl, rfl, rfl⟩

/-- The inner `while( j >= 0 && j <= numYPoints - 1 )` loop of the Custom
probing traversal of `header`, specialized to `incr_decr = +1`: returns the
list of probed `j` values together with the final value of `j`. -/
def scanUpF (maxJ : ℤ) (j : ℤ) : List ℤ × ℤ :=
  if h : 0 ≤ j ∧ j ≤ maxJ then
    let r := scanUpF maxJ (j + 1)
    (j :: r.1, r.2)
  else ([], j)
termination_by (maxJ + 1 - j).toNat
decreasing_by
  simp_wf
  omega

/-- The same while loop specialized to `incr_decr = -1`. -/
def scanDownF (maxJ : ℤ) (j : ℤ) : List ℤ × ℤ :=
  if h : 0 ≤ j ∧ j ≤ maxJ then
    let r := scanDownF maxJ (j - 1)
    (j :: r.1, r.2)
  else ([], j)
termination_by (j + 1).toNat
decreasing_by
  simp_wf
  omega

/-- The outer `for( i = 0; i < numXPoints; i++ )` loop of the Custom
probing traversal: each column runs the while loop in the current direction
(`up` models `incr_decr = +1`), then the direction flips and `j` moves one
step in the new direction. -/
def probeCols (Y : ℤ) : ℕ → ℤ → ℤ → Bool → List (ℤ × ℤ)
  | 0, _, _, _ => []
  | c + 1, i, j, up =>
    let r := if up then scanUpF (Y - 1) j else scanDownF (Y - 1) j
    r.1.map (fun jj => (i, jj)) ++
      probeCols Y c (i + 1) (r.2 + (if up then -1 else 1)) (!up)

/-- The full unrolled serpentine probing traversal emitted by `header` for
the Custom dialect (lines 229-241): `i` runs over `numXPoints` columns, `j`
starts at 1, `incr_decr` starts at +1.  Each emitted pair is the grid index
`(i, j)` of one probe-and-store block. -/
def customProbedPoints (X Y : ℤ) : List (ℤ × ℤ) := probeCols Y X.toNat 0 1 true

/-- The reference assignment `#500 = 0` emitted by `header` before the
traversal (line 208): table slot 500 receives the constant 0. -/
def customReferenceAssign : ℤ × ℚ := (500, 0)

lemma scanUpF_eq (maxJ : ℤ) :
    ∀ (n : ℕ) (j : ℤ), 0 ≤ j → (maxJ + 1 - j).toNat = n →
      scanUpF maxJ j =
        ((List.range n).map (fun (k : ℕ) => j + (k : ℤ)),
         if j ≤ maxJ then maxJ + 1 else j) := by
  intro n
  induction n with
  | zero =>
    intro j h0 hn
    rw [scanUpF, dif_neg (by omega)]
    rw [if_neg (by omega)]
    simp
  | succ n ih =>
    intro j h0 hn
    have hj : j ≤ maxJ := by omega
    rw [scanUpF, dif_pos ⟨h0, hj⟩]
    rw [ih (j + 1) (by omega) (by omega)]
    refine Prod.ext ?_ ?_
    · show j :: (List.range n).map (fun (k : ℕ) => j + 1 + (k : ℤ)) = _
      rw [List.range_succ_eq_map, List.map_cons, List.map_map]
      congr 1
      · norm_num
      · refine List.map_congr_left ?_
        intro a _
        show j + 1 + (a : ℤ) = j + ((a + 1 : ℕ) : ℤ)
        push_cast
        ring
    · show (if j + 1 ≤ maxJ then maxJ + 1 else j + 1) = _
      rw [if_pos hj]
      by_cases h : j + 1 ≤ maxJ
      · rw [if_pos h]
      · rw [if_neg h]; omega

lemma scanDownF_eq (maxJ : ℤ) :
    ∀ (n : ℕ) (j : ℤ), j ≤ maxJ → (j + 1).toNat = n →
      scanDownF maxJ j =
        ((List.range n).map (fun (k : ℕ) => j - (k : ℤ)),
         if 0 ≤ j then (-1 : ℤ) else j) := by
  intro n
  induction n with
  | zero =>
    intro j hj hn
    rw [scanDownF, dif_neg (by omega)]
    rw [if_neg (by omega)]
    simp
  | succ n ih =>
    intro j hj hn
    have h0 : 0 ≤ j := by omega
    rw [scanDownF, dif_pos ⟨h0, hj⟩]
    rw [ih (j - 1) (by omega) (by omega)]
    refine Prod.ext ?_ ?_
    · show j :: (List.range n).map (fun (k : ℕ) => j - 1 - (k : ℤ)) = _
      rw [List.range_succ_eq_map, List.map_cons, List.map_map]
      congr 1
      · norm_num
      · refine List.map_congr_left ?_
        intro a _
        show j - 1 - (a : ℤ) = j - ((a + 1 : ℕ) : ℤ)
        push_cast
        ring
    · show (if 0 ≤ j - 1 then (-1 : ℤ) else j - 1) = _
      rw [if_pos h0]
      by_cases h : 0 ≤ j - 1
      · rw [if_pos h]
      · rw [if_neg h]; omega

lemma scanUpF_mem (maxJ j x : ℤ) (h0 : 0 ≤ j) :
    x ∈ (scanUpF maxJ j).1 ↔ (j ≤ x ∧ x ≤ maxJ) := by
  rw [scanUpF_eq maxJ ((maxJ + 1 - j).toNat) j h0 rfl]
  dsimp only
  simp only [List.mem_map, List.mem_range]
  constructor
  · rintro ⟨k, hk, rfl⟩
    omega
  · intro hx
    exact ⟨(x - j).toNat, by omega, by omega⟩

lemma scanDownF_mem (maxJ j x : ℤ) (hj : j ≤ maxJ) :
    x ∈ (scanDownF maxJ j).1 ↔ (0 ≤ x ∧ x ≤ j) := by
  rw [scanDownF_eq maxJ ((j + 1).toNat) j hj rfl]
  dsimp only
  simp only [List.mem_map, List.mem_range]
  constructor
  · rintro ⟨k, hk, rfl⟩
    omega
  · intro hx
    exact ⟨(j - x).toNat, by omega, by omega⟩

lemma scanUpF_nodup (maxJ j : ℤ) (h0 : 0 ≤ j) : (scanUpF maxJ j).1.Nodup := by
  rw [scanUpF_eq maxJ ((maxJ + 1 - j).toNat) j h0 rfl]
  dsimp only
  exact List.Nodup.map (fun a b hab => by omega) (List.nodup_range _)

lemma scanDownF_nodup (maxJ j : ℤ) (hj : j ≤ maxJ) : (scanDownF maxJ j).1.Nodup := by
  rw [scanDownF_eq maxJ ((j + 1).toNat) j hj rfl]
  dsimp only
  exact List.Nodup.map (fun a b hab => by omega) (List.nodup_range _)

lemma scanUpF_final (maxJ j : ℤ) (h0 : 0 ≤ j) (hj : j ≤ maxJ) :
    (scanUpF maxJ j).2 = maxJ + 1 := by
  rw [scanUpF_eq maxJ ((maxJ + 1 - j).toNat) j h0 rfl]
  dsimp only
  rw [if_pos hj]

lemma scanDownF_final (maxJ j : ℤ) (h0 : 0 ≤ j) (hj : j ≤ maxJ) :
    (scanDownF maxJ j).2 = -1 := by
  rw [scanDownF_eq maxJ ((j + 1).toNat) j hj rfl]
  dsimp only
  rw [if_pos h0]

/-- Invariant of the column loop: a column entered upward starts at `j = 0`,
a column entered downward starts at `j = Y - 1`; every such column probes
exactly the full range `0 .. Y-1`, so `c` columns starting at `i` cover
exactly the grid `[i, i+c) × [0, Y-1]` with no duplicates. -/
lemma probeCols_spec (Y : ℤ) (hY : 2 ≤ Y) :
    ∀ (c : ℕ) (i j : ℤ) (up : Bool),
      (up = true → j = 0) → (up = false → j = Y - 1) →
      ((∀ q : ℤ × ℤ, q ∈ probeCols Y c i j up ↔
        (i ≤ q.1 ∧ q.1 < i + (c : ℤ) ∧ 0 ≤ q.2 ∧ q.2 ≤ Y - 1)) ∧
       (probeCols Y c i j up).Nodup) := by
  intro c
  induction c with
  | zero =>
    intro i j up _ _
    constructor
    · intro q
      constructor
      · intro h
        exact absurd h (List.not_mem_nil q)
      · intro hq
        exfalso
        push_cast at hq
        omega
    · exact List.nodup_nil
  | succ c ih =>
    intro i j up hupt hupf
    cases up with
    | true =>
      have hj : j = 0 := hupt rfl
      subst hj
      have hstep : probeCols Y (c + 1) i 0 true =
          (scanUpF (Y - 1) 0).1.map (fun jj => (i, jj)) ++
            probeCols Y c (i + 1) ((scanUpF (Y - 1) 0).2 + -1) false := rfl
      have hfin : (scanUpF (Y - 1) 0).2 = Y := by
        rw [scanUpF_final (Y - 1) 0 le_rfl (by omega)]
        omega
      rw [hstep, hfin]
      obtain ⟨ihm, ihn⟩ := ih (i + 1) (Y + -1) false
        (fun h => Bool.noConfusion h) (fun _ => by omega)
      constructor
      · intro q
        obtain ⟨a, b⟩ := q
        rw [List.mem_append, List.mem_map]
        constructor
        · rintro (⟨jj, hjj, heq⟩ | hr)
          · injection heq with h1 h2
            subst h1
            subst h2
            rw [scanUpF_mem (Y - 1) 0 _ le_rfl] at hjj
            push_cast
            omega
          · have h2 := (ihm (a, b)).mp hr
            push_cast at h2 ⊢
            omega
        · intro hq
          push_cast at hq
          rcases eq_or_lt_of_le hq.1 with heq | hlt
          · left
            exact ⟨b, (scanUpF_mem (Y - 1) 0 b le_rfl).mpr (by omega),
              by rw [heq]⟩
          · right
            apply (ihm (a, b)).mpr
            push_cast
            omega
      · rw [List.nodup_append]
        refine ⟨List.Nodup.map (fun x y hxy => by injection hxy)
          (scanUpF_nodup _ _ le_rfl), ihn, ?_⟩
        rw [List.disjoint_left]
        intro q hq1 hq2
        obtain ⟨jj, hjj, heq⟩ := List.mem_map.mp hq1
        have h2 := (ihm q).mp hq2
        rw [← heq] at h2
        exact absurd (h2.1 : i + 1 ≤ i) (by omega)
    | false =>
      have hj : j = Y - 1 := hupf rfl
      subst hj
      have hstep : probeCols Y (c + 1) i (Y - 1) false =
          (scanDownF (Y - 1) (Y - 1)).1.map (fun jj => (i, jj)) ++
            probeCols Y c (i + 1) ((scanDownF (Y - 1) (Y - 1)).2 + 1) true := rfl
      have hfin : (scanDownF (Y - 1) (Y - 1)).2 = -1 := by
        rw [scanDownF_final (Y - 1) (Y - 1) (by omega) le_rfl]
      rw [hstep, hfin]
      obtain ⟨ihm, ihn⟩ := ih (i + 1) (-1 + 1) true
        (fun _ => by omega) (fun h => Bool.noConfusion h)
      constructor
      · intro q
        obtain ⟨a, b⟩ := q
        rw [List.mem_append, List.mem_map]
        constructor
        · rintro (⟨jj, hjj, heq⟩ | hr)
          · injection heq with h1 h2
            subst h1
            subst h2
            rw [scanDownF_mem (Y - 1) (Y - 1) _ le_rfl] at hjj
            push_cast
            omega
          · have h2 := (ihm (a, b)).mp hr
            push_cast at h2 ⊢
            omega
        · intro hq
          push_cast at hq
          rcases eq_or_lt_of_le hq.1 with heq | hlt
          · left
            exact ⟨b, (scanDownF_mem (Y - 1) (Y - 1) b le_rfl).mpr (by omega),
              by rw [heq]⟩
          · right
            apply (ihm (a, b)).mpr
            push_cast
            omega
      · rw [List.nodup_append]
        refine ⟨List.Nodup.map (fun x y hxy => by injection hxy)
          (scanDownF_nodup _ _ le_rfl), ihn, ?_⟩
        rw [List.disjoint_left]
        intro q hq1 hq2
        obtain ⟨jj, hjj, heq⟩ := List.mem_map.mp hq1
        have h2 := (ihm q).mp hq2
        rw [← heq] at h2
        exact absurd (h2.1 : i + 1 ≤ i) (by omega)

/-- C10: for the Custom dialect, the unrolled serpentine traversal probes
exactly the grid points `(i, j)` with `0 ≤ i < numXPoints`,
`0 ≤ j < numYPoints` except `(0, 0)`, each exactly once; its first column is
`j = 1 .. numYPoints-1` upward; and point `(0, 0)` is covered instead by the
`#500 = 0` reference assignment, 500 being exactly `getVarName(0, 0)`. -/
theorem c10_custom_serpentine (X Y : ℤ) (hX : 2 ≤ X) (hY : 2 ≤ Y) :
    (∀ q : ℤ × ℤ, q ∈ customProbedPoints X Y ↔
      (0 ≤ q.1 ∧ q.1 < X ∧ 0 ≤ q.2 ∧ q.2 < Y ∧ q ≠ ((0 : ℤ), (0 : ℤ)))) ∧
    (customProbedPoints X Y).Nodup ∧
    (customProbedPoints X Y).take (Y - 1).toNat =
      (List.range (Y - 1).toNat).map (fun (k : ℕ) => ((0 : ℤ), 1 + (k : ℤ))) ∧
    (∀ al : Autoleveller, customReferenceAssign.1 = getVarName al 0 0) ∧
    customReferenceAssign.2 = 0 := by
  obtain ⟨c, hc⟩ : ∃ c : ℕ, X.toNat = c + 1 := ⟨X.toNat - 1, by omega⟩
  have hstep : customProbedPoints X Y =
      (scanUpF (Y - 1) 1).1.map (fun jj => ((0 : ℤ), jj)) ++
        probeCols Y c 1 ((scanUpF (Y - 1) 1).2 + -1) false := by
    rw [customProbedPoints, hc]
    rfl
  have hfin : (scanUpF (Y - 1) 1).2 = Y := by
    rw [scanUpF_final (Y - 1) 1 (by omega) (by omega)]
    omega
  have hcX : (c : ℤ) + 1 = X := by omega
  rw [hstep, hfin]
  obtain ⟨ihm, ihn⟩ := probeCols_spec Y hY c 1 (Y + -1) false
    (fun h => Bool.noConfusion h) (fun _ => by omega)
  refine ⟨?_, ?_, ?_, ?_, rfl⟩
  · intro q
    obtain ⟨a, b⟩ := q
    rw [List.mem_append, List.mem_map]
    constructor
    · rintro (⟨jj, hjj, heq⟩ | hr)
      · injection heq with h1 h2
        subst h1
        subst h2
        rw [scanUpF_mem (Y - 1) 1 _ (by omega)] at hjj
        refine ⟨by omega, by omega, by omega, by omega, ?_⟩
        simp only [ne_eq, Prod.mk.injEq, not_and]
        intro _
        omega
      · have h2 := (ihm (a, b)).mp hr
        refine ⟨by omega, by omega, by omega, by omega, ?_⟩
        simp only [ne_eq, Prod.mk.injEq, not_and]
        intro ha
        omega
    · rintro ⟨h1, h2, h3, h4, h5⟩
      have h5' : ¬(a = 0 ∧ b = 0) := by simpa [Prod.ext_iff] using h5
      by_cases ha : a = 0
      · subst ha
        left
        exact ⟨b, (scanUpF_mem (Y - 1) 1 b (by omega)).mpr (by omega), rfl⟩
      · right
        apply (ihm (a, b)).mpr
        push_cast
        omega
  · rw [List.nodup_append]
    refine ⟨List.Nodup.map (fun x y hxy => by injection hxy)
      (scanUpF_nodup _ _ (by omega)), ihn, ?_⟩
    rw [List.disjoint_left]
    intro q hq1 hq2
    obtain ⟨jj, hjj, heq⟩ := List.mem_map.mp hq1
    have h2 := (ihm q).mp hq2
    rw [← heq] at h2
    exact absurd (h2.1 : (1 : ℤ) ≤ 0) (by omega)
  · have hup1 : scanUpF (Y - 1) 1 =
        ((List.range (Y - 1).toNat).map (fun (k : ℕ) => 1 + (k : ℤ)), Y) := by
      rw [scanUpF_eq (Y - 1) ((Y - 1).toNat) 1 (by omega) (by omega)]
      rw [if_pos (by omega)]
      refine Prod.ext rfl ?_
      show Y - 1 + 1 = Y
      omega
    rw [hup1]
    show (((List.range (Y - 1).toNat).map (fun (k : ℕ) => 1 + (k : ℤ))).map
        (fun jj => ((0 : ℤ), jj)) ++
        probeCols Y c 1 (Y + -1) false).take (Y - 1).toNat = _
    rw [List.map_map]
    rw [List.take_left' (by rw [List.length_map, List.length_range])]
    rfl
  · intro al
    simp [customReferenceAssign, getVarName]

/-- Witness for C10 at the concrete grid 2×3: the hypotheses hold, `(0,1)`
is probed, `(0,0)` is not, and the traversal has no duplicates. -/
theorem c10_custom_serpentine_witness :
    (2 : ℤ) ≤ 2 ∧ (2 : ℤ) ≤ 3 ∧
    ((0, 1) : ℤ × ℤ) ∈ customProbedPoints 2 3 ∧
    (((0, 0) : ℤ × ℤ) ∉ customProbedPoints 2 3) ∧
    (customProbedPoints 2 3).Nodup := by
  have h := c10_custom_serpentine 2 3 (by omega) (by omega)
  refine ⟨by omega, by omega, ?_, ?_, h.2.1⟩
  · apply (h.1 (0, 1)).mpr
    refine ⟨by omega, by omega, by omega, by omega, ?_⟩
    simp
  · intro hc
    have h2 := (h.1 (0, 0)).mp hc
    exact h2.2.2.2.2 rfl

end Pcb2gcode
